import Mathlib

/-!
# go-insertcsv: CSV bulk loader

A shallow embedding of `main.go`: the header lookup and the reorder step of the
producer, the producer's read loop over the reader of `openCsvFile`, the insert
statement and the retry loop of `doTheJob`, the worker pool and the WaitGroup protocol
between producer and workers. The library calls `reader.Read()` and `db.Transaction`
are modelled by the contracts of their packages.

Go slices of strings are lists of strings, Go `int` values are integers, an index
expression that Go would abort with a run-time panic returns an error value.
-/

namespace InsertCsv

/-! ## Constants -/

/-- The constant `totalWorker` (main.go, line 20). -/
def totalWorker : Nat := 100

/-- The cap on open connections that `openDbConnection` sets with
`sql.SetMaxOpenConns(100)` (main.go, line 63). -/
def maxOpenConns : Nat := 100

/-! ## Header lookup and the reorder step -/

/-- The loop of `getIndexByHeader` over the remaining header values, `index` being the
position of the first of them. -/
def getIndexByHeaderLoop (header : String) : List String → Int → Int
  | [], _ => -1
  | value :: rest, index =>
    if value = header then index else getIndexByHeaderLoop header rest (index + 1)

/-- The function `getIndexByHeader` (main.go, lines 165-172); the global `dataHeader` is
passed explicitly. -/
def getIndexByHeader (dataHeader : List String) (header : String) : Int :=
  getIndexByHeaderLoop header dataHeader 0

/-- A Go run-time panic raised by an index expression. -/
inductive Fault where
  | indexOutOfRange (index : Int) (len : Nat)
  deriving DecidableEq, Repr

deriving instance DecidableEq for Except

/-- The Go index expression `line[i]` for an `int` index: the element when
`0 ≤ i < len(line)`, a run-time panic otherwise. -/
def indexLine (line : List String) (i : Int) : Except Fault String :=
  if 0 ≤ i then
    match line.get? i.toNat with
    | some field => Except.ok field
    | none => Except.error (Fault.indexOutOfRange i line.length)
  else Except.error (Fault.indexOutOfRange i line.length)

/-- The loop of the reorder step over the remaining header names (main.go, lines
116-118): each iteration appends `line[getIndexByHeader(header)]` to `lineOrdered`. -/
def reorderLoop (dataHeader line : List String) :
    List String → List String → Except Fault (List String)
  | [], lineOrdered => Except.ok lineOrdered
  | header :: rest, lineOrdered =>
    match indexLine line (getIndexByHeader dataHeader header) with
    | Except.ok field => reorderLoop dataHeader line rest (lineOrdered ++ [field])
    | Except.error f => Except.error f

/-- The reorder step of `readCsvFilePerLineThenSendToWorker` (main.go, lines 115-118):
`lineOrdered` starts empty and the loop ranges over `dataHeader`. -/
def reorder (dataHeader line : List String) : Except Fault (List String) :=
  reorderLoop dataHeader line dataHeader []

/-! ## The insert statement -/

/-- The function `generateQuestionsMark` (main.go, lines 157-163): the loop
`for i := 0; i < n; i++` appends one `"?"` per iteration; it does not run for `n ≤ 0`. -/
def generateQuestionsMark (n : Int) : List String :=
  (List.range n.toNat).foldl (fun s _ => s ++ ["?"]) []

/-- The function `strings.Join` of the Go library. -/
def stringsJoin (elems : List String) (sep : String) : String :=
  sep.intercalate elems

/-- The statement built at main.go, line 135:
`fmt.Sprintf("INSERT INTO domain (%s) VALUES (%s)", ...)`. -/
def insertQuery (dataHeader : List String) : String :=
  "INSERT INTO domain (" ++ stringsJoin dataHeader "," ++ ") VALUES (" ++
    stringsJoin (generateQuestionsMark (dataHeader.length : Int)) "," ++ ")"

/-- The field the reorder step picks for the column `header`: the record's field at the
position of the first occurrence of `header` in the Header. -/
def pickField (dataHeader line : List String) (header : String) : String :=
  (line.get? (dataHeader.indexOf header)).getD ""

/-! ## The producer: `readCsvFilePerLineThenSendToWorker` -/

/-- One result of `reader.Read()` (main.go, line 102): a record with a nil error, the
error `io.EOF`, or any other error. -/
inductive ReadResult where
  | record (line : List String)
  | eof
  | error (msg : String)
  deriving DecidableEq, Repr

/-- The state the producer works on: the global `dataHeader`, the Jobs sent on the
channel `jobs` in the order of the sends, and the numbers of `wg.Add(1)`, `close(jobs)`
and `reader.Read()` calls made so far. -/
structure Producer where
  dataHeader : List String
  jobs : List (List String)
  wgAdds : Nat
  closes : Nat
  reads : Nat
  deriving DecidableEq, Repr

/-- How a call of `readCsvFilePerLineThenSendToWorker` ends: it returns, or a run-time
panic of the reorder step aborts it. -/
inductive Exit where
  | returned
  | panicked (f : Fault)
  deriving DecidableEq, Repr

/-- The `for` loop of `readCsvFilePerLineThenSendToWorker` (main.go, lines 101-122) over
the results the Row Source gives to the successive `reader.Read()` calls; a source
that has no further result reports `io.EOF`. The loop is left by `break` on any error
(`none`), or aborted by a panic of `line[...]` (`some f`). -/
def readLoop : List ReadResult → Producer → Producer × Option Fault
  | [], st => ({ st with reads := st.reads + 1 }, none)
  | ReadResult.eof :: _, st => ({ st with reads := st.reads + 1 }, none)
  | ReadResult.error _ :: _, st => ({ st with reads := st.reads + 1 }, none)
  | ReadResult.record line :: rest, st =>
    let st1 := { st with reads := st.reads + 1 }
    if st1.dataHeader.length = 0 then
      readLoop rest { st1 with dataHeader := line }
    else
      match reorder st1.dataHeader line with
      | Except.error f => (st1, some f)
      | Except.ok lineOrdered =>
        readLoop rest { st1 with wgAdds := st1.wgAdds + 1, jobs := st1.jobs ++ [lineOrdered] }

/-- The function `readCsvFilePerLineThenSendToWorker` (main.go, lines 98-124): the read
loop, then `close(jobs)`. -/
def readCsvFilePerLineThenSendToWorker (source : List ReadResult) (st : Producer) :
    Producer × Exit :=
  match readLoop source st with
  | (st1, none) => ({ st1 with closes := st1.closes + 1 }, Exit.returned)
  | (st1, some f) => (st1, Exit.panicked f)

/-- The producer's state when `main` calls it: `dataHeader` is the empty slice of
main.go, line 23, nothing has been sent, counted, closed or read. -/
def Producer.start : Producer :=
  { dataHeader := [], jobs := [], wgAdds := 0, closes := 0, reads := 0 }

/-- The records of a source are well formed when the first has at least one field and
every later one has at least as many fields as the first. -/
def WellFormed : List (List String) → Prop
  | [] => True
  | header :: rest => header ≠ [] ∧ ∀ line ∈ rest, header.length ≤ line.length

/-! ## The Row Source: the reader of `openCsvFile` -/

/-- One line of the CSV file as the reader meets it: a line that splits into the given
fields, the empty list being a blank line, or a line that does not parse. -/
inductive CsvLine where
  | fields (line : List String)
  | malformed (msg : String)
  deriving DecidableEq, Repr

/-- The message of the error `csv.ErrFieldCount`. -/
def errFieldCount : String := "wrong number of fields"

/-- The reader that `openCsvFile` builds with `csv.NewReader(file)` (main.go, line 77),
by the contract of the package `encoding/csv`: the results of the successive
`reader.Read()` calls up to and including the first error. `NewReader` leaves
`FieldsPerRecord` at 0, so the first record sets it to its number of fields and a later
line with another number of fields is returned with `ErrFieldCount`; blank lines are
skipped, so that no record has zero fields; a line that does not parse gives its parse
error; after the last line the error is `io.EOF`. -/
def csvRead : Nat → List CsvLine → List ReadResult
  | _, [] => [ReadResult.eof]
  | _, CsvLine.malformed msg :: _ => [ReadResult.error msg]
  | fieldsPerRecord, CsvLine.fields line :: rest =>
    if line.length = 0 then csvRead fieldsPerRecord rest
    else if fieldsPerRecord = 0 then ReadResult.record line :: csvRead line.length rest
    else if line.length = fieldsPerRecord then
      ReadResult.record line :: csvRead fieldsPerRecord rest
    else [ReadResult.error errFieldCount]

/-! ## The Insert Executor: `doTheJob` -/

/-- What `tx.Exec(query, job...)` does in one attempt: the statement is executed and the
error is nil, the call returns an error, or the call panics with the value `r` before
the statement takes effect. -/
inductive ExecResult where
  | ok
  | error (msg : String)
  | panic (r : String)
  deriving DecidableEq, Repr

/-- What the Row Sink does during one attempt: the error of opening the transaction, the
outcome of `tx.Exec`, and the error of the commit (`none` is the nil error). -/
structure Attempt where
  beginError : Option String
  exec : ExecResult
  commitError : Option String
  deriving DecidableEq, Repr

/-- The log lines of `doTheJob`: `Recovered in f` (line 131), the failure line of a failed
attempt (line 148) and the progress line (line 153). -/
inductive LogLine where
  | recovered (r : String)
  | failure (workerIndex counter : Nat) (msg : String)
  | inserted (workerIndex counter : Nat)
  deriving DecidableEq, Repr

/-- Whether a log line is the failure line of line 148. -/
def LogLine.isFailure : LogLine → Bool
  | LogLine.failure _ _ _ => true
  | _ => false

/-- What has happened in a call of `doTheJob` so far: the number of attempts (calls of
`db.Transaction`), the rows committed to the Row Sink as statement and values, the log
lines in order, and the `time.Sleep` calls in seconds. -/
structure JobRun where
  attempts : Nat
  inserted : List (String × List String)
  log : List LogLine
  sleeps : List Nat
  deriving DecidableEq, Repr

/-- The closure passed to `db.Transaction` (main.go, lines 128-142): its returned error,
the rows it executed and its log lines. When `tx.Exec` panics the deferred function
recovers and logs; the closure's result is unnamed and the deferred function does not
set it, so the closure returns the zero value, the nil error. -/
def txFunc (dataHeader job : List String) :
    ExecResult → Option String × List (String × List String) × List LogLine
  | ExecResult.ok => (none, [(insertQuery dataHeader, job)], [])
  | ExecResult.error innerError => (some innerError, [], [])
  | ExecResult.panic r => (none, [], [LogLine.recovered r])

/-- The method `db.Transaction` of the gorm library, by its contract: it opens a
transaction and returns the error of that if there is one; it runs the closure and, when
the closure returns an error, rolls back and returns that error; otherwise it commits
and returns the error of the commit, whose rows are persisted only when that is nil. -/
def transaction
    (fc : ExecResult → Option String × List (String × List String) × List LogLine)
    (a : Attempt) : Option String × List (String × List String) × List LogLine :=
  match a.beginError with
  | some e => (some e, [], [])
  | none =>
    match fc a.exec with
    | (some e, _, log) => (some e, [], log)
    | (none, rows, log) =>
      match a.commitError with
      | none => (none, rows, log)
      | some e => (some e, [], log)

/-- The `for` loop of `doTheJob` (main.go, lines 127-150) followed by the progress line
(lines 152-154); `sink n` is what the Row Sink does during attempt number `n`, counted
from 0, and the first argument bounds the number of attempts that are unfolded: `none`
means the bound was reached with the loop still running. -/
def doTheJobLoop (sink : Nat → Attempt) (workerIndex counter : Nat)
    (dataHeader job : List String) : Nat → Nat → JobRun → Option JobRun
  | 0, _, _ => none
  | fuel + 1, n, run =>
    match transaction (txFunc dataHeader job) (sink n) with
    | (none, rows, log) =>
      some { attempts := run.attempts + 1, inserted := run.inserted ++ rows,
             log := run.log ++ log ++
               (if counter % 100 = 0 then [LogLine.inserted workerIndex counter] else []),
             sleeps := run.sleeps }
    | (some outerError, rows, log) =>
      doTheJobLoop sink workerIndex counter dataHeader job fuel (n + 1)
        { attempts := run.attempts + 1, inserted := run.inserted ++ rows,
          log := run.log ++ log ++ [LogLine.failure workerIndex counter outerError],
          sleeps := run.sleeps ++ [1] }

/-- The function `doTheJob` (main.go, lines 126-155). -/
def doTheJob (fuel : Nat) (sink : Nat → Attempt) (workerIndex counter : Nat)
    (dataHeader job : List String) : Option JobRun :=
  doTheJobLoop sink workerIndex counter dataHeader job fuel 0
    { attempts := 0, inserted := [], log := [], sleeps := [] }

/-- An attempt succeeds when the transaction opens, the statement executes and the commit
goes through. -/
def Attempt.Succeeds (a : Attempt) : Prop :=
  a.beginError = none ∧ a.exec = ExecResult.ok ∧ a.commitError = none

/-- An attempt fails with an error when `db.Transaction` returns a non-nil error for it. -/
def Attempt.FailsWithError (dataHeader job : List String) (a : Attempt) : Prop :=
  (transaction (txFunc dataHeader job) a).1 ≠ none

instance (a : Attempt) : Decidable a.Succeeds := by
  unfold Attempt.Succeeds
  infer_instance

instance (dataHeader job : List String) (a : Attempt) :
    Decidable (Attempt.FailsWithError dataHeader job a) := by
  unfold Attempt.FailsWithError
  infer_instance

/-! ## The Worker Pool: `dispatchWorkers` -/

/-- The loop `for workerIndex := 0; workerIndex <= totalWorker; workerIndex++` of
`dispatchWorkers` (main.go, lines 84-95): `started` lists the indices of the workers
started so far by the `go` statement. -/
def dispatchWorkersLoop (workerIndex : Nat) (started : List Nat) : List Nat :=
  if workerIndex ≤ totalWorker then
    dispatchWorkersLoop (workerIndex + 1) (started ++ [workerIndex])
  else started
termination_by totalWorker + 1 - workerIndex

/-- The function `dispatchWorkers` (main.go, lines 81-96): the indices of the workers it
starts, in the order of the `go` statements. -/
def dispatchWorkers : List Nat :=
  dispatchWorkersLoop 0 []

/-! ## The WaitGroup protocol between producer and workers -/

/-- Where a worker stands in its loop (main.go, lines 89-93): at `range jobs` waiting
for a Job, inside `doTheJob`, or between the return of `doTheJob` and `wg.Done()`. -/
inductive WorkerPc where
  | receiving
  | running
  | returned
  deriving DecidableEq, Repr

/-- The state of the producer/worker system: the WaitGroup counter, whether the producer
stands between `wg.Add(1)` and the send `jobs <- lineOrdered`, where each worker
stands, how many Jobs have been handed over the channel, and how many calls of
`doTheJob` have returned. -/
structure System where
  pending : Int
  added : Bool
  workers : List WorkerPc
  dispatched : Nat
  completed : Nat
  deriving DecidableEq, Repr

/-- The atomic steps of the system: `wg.Add(1)` by the producer; the hand-over of a Job
on the unbuffered channel from the producer to worker `w`; the return of `doTheJob` in
worker `w`; `wg.Done()` by worker `w`. -/
inductive Action where
  | add
  | handOver (w : Nat)
  | finish (w : Nat)
  | done (w : Nat)
  deriving DecidableEq, Repr

/-- One step of the system; `none` when the step is not enabled in the state. -/
def System.step (s : System) : Action → Option System
  | Action.add =>
    if s.added = false then some { s with pending := s.pending + 1, added := true }
    else none
  | Action.handOver w =>
    if s.added = true ∧ s.workers.get? w = some WorkerPc.receiving then
      some { s with added := false, workers := s.workers.set w WorkerPc.running,
                    dispatched := s.dispatched + 1 }
    else none
  | Action.finish w =>
    if s.workers.get? w = some WorkerPc.running then
      some { s with workers := s.workers.set w WorkerPc.returned,
                    completed := s.completed + 1 }
    else none
  | Action.done w =>
    if s.workers.get? w = some WorkerPc.returned then
      some { s with workers := s.workers.set w WorkerPc.receiving,
                    pending := s.pending - 1 }
    else none

/-- The steps of a schedule, one after the other. -/
def System.run (s : System) : List Action → Option System
  | [] => some s
  | a :: rest =>
    match s.step a with
    | some s1 => System.run s1 rest
    | none => none

/-- The initial state with `n` workers: the counter of a new WaitGroup is zero, nothing
has been counted or handed over, every worker waits for a Job. -/
def System.init (n : Nat) : System :=
  { pending := 0, added := false, workers := List.replicate n WorkerPc.receiving,
    dispatched := 0, completed := 0 }

/-- The states the system reaches from the initial state of the pool that
`dispatchWorkers` starts. -/
def Reachable (s : System) : Prop :=
  ∃ schedule : List Action, (System.init dispatchWorkers.length).run schedule = some s

/-- Whether a worker holds a Job: it is inside `doTheJob` or before `wg.Done()`. -/
def WorkerPc.isBusy : WorkerPc → Bool
  | WorkerPc.receiving => false
  | WorkerPc.running => true
  | WorkerPc.returned => true

/-- Whether a worker is inside `doTheJob`. -/
def WorkerPc.isRunning : WorkerPc → Bool
  | WorkerPc.receiving => false
  | WorkerPc.running => true
  | WorkerPc.returned => false

/-- The number of workers that hold a Job. -/
def busyCount (workers : List WorkerPc) : Nat :=
  workers.countP WorkerPc.isBusy

/-- The number of workers inside `doTheJob`. -/
def runningCount (workers : List WorkerPc) : Nat :=
  workers.countP WorkerPc.isRunning

/-- The invariant of the system: the WaitGroup counter is the number of Jobs counted and
not yet acknowledged, and the Jobs handed over are those completed and those running. -/
def System.Inv (s : System) : Prop :=
  s.pending = (if s.added = true then 1 else 0) + (busyCount s.workers : Int) ∧
    s.dispatched = s.completed + runningCount s.workers

/-- The state after one Job has been counted, handed over to worker 0, completed and
acknowledged, in the pool of 101 workers. -/
def System.oneJobDone : System :=
  { pending := 0, added := false, workers := List.replicate 101 WorkerPc.receiving,
    dispatched := 1, completed := 1 }

/-! ## Lemmas on the header lookup and the reorder step -/

theorem getIndexByHeaderLoop_eq (header : String) :
    ∀ (l : List String) (k : Int),
      getIndexByHeaderLoop header l k
        = if header ∈ l then k + (l.indexOf header : Int) else -1 := by
  intro l
  induction l with
  | nil => intro k; simp [getIndexByHeaderLoop]
  | cons value rest ih =>
    intro k
    by_cases hv : value = header
    · subst hv
      simp [getIndexByHeaderLoop]
    · have hne : header ≠ value := fun h => hv h.symm
      rw [getIndexByHeaderLoop, if_neg hv, ih, List.indexOf_cons_ne _ hv]
      by_cases hm : header ∈ rest
      · simp [hm]; omega
      · simp [hm, hne]

theorem getIndexByHeader_eq (dataHeader : List String) (header : String) :
    getIndexByHeader dataHeader header
      = if header ∈ dataHeader then (dataHeader.indexOf header : Int) else -1 := by
  simp [getIndexByHeader, getIndexByHeaderLoop_eq]

theorem get?_ne_of_lt_indexOf (a : String) :
    ∀ (l : List String) (q : Nat), q < l.indexOf a → l.get? q ≠ some a := by
  intro l
  induction l with
  | nil => intro q hq; simp at hq
  | cons b rest ih =>
    intro q hq
    by_cases hb : b = a
    · subst hb; simp at hq
    · rw [List.indexOf_cons_ne _ hb] at hq
      cases q with
      | zero => simpa using hb
      | succ q => simpa using ih q (by omega)

theorem indexLine_natCast (line : List String) (p : Nat) (field : String)
    (h : line.get? p = some field) : indexLine line (p : Int) = Except.ok field := by
  have hp : (0 : Int) ≤ (p : Int) := Int.ofNat_nonneg p
  rw [indexLine, if_pos hp, Int.toNat_ofNat, h]

theorem indexLine_neg (line : List String) (i : Int) (h : i < 0) :
    indexLine line i = Except.error (Fault.indexOutOfRange i line.length) := by
  have : ¬ (0 ≤ i) := by omega
  simp [indexLine, this]

theorem indexLine_getIndexByHeader (dataHeader line : List String) (header : String)
    (hmem : header ∈ dataHeader) (hlen : dataHeader.length ≤ line.length) :
    indexLine line (getIndexByHeader dataHeader header)
      = Except.ok (pickField dataHeader line header) := by
  have hlt : dataHeader.indexOf header < line.length :=
    lt_of_lt_of_le (List.indexOf_lt_length.mpr hmem) hlen
  rw [getIndexByHeader_eq, if_pos hmem]
  apply indexLine_natCast
  rw [pickField, List.get?_eq_get hlt]
  rfl

theorem reorderLoop_eq (dataHeader line : List String)
    (hlen : dataHeader.length ≤ line.length) :
    ∀ (rest lineOrdered : List String), (∀ h ∈ rest, h ∈ dataHeader) →
      reorderLoop dataHeader line rest lineOrdered
        = Except.ok (lineOrdered ++ rest.map (pickField dataHeader line)) := by
  intro rest
  induction rest with
  | nil => intro acc _; simp [reorderLoop]
  | cons header rest ih =>
    intro acc hsub
    have hmem : header ∈ dataHeader := hsub header (List.mem_cons_self _ _)
    rw [reorderLoop, indexLine_getIndexByHeader dataHeader line header hmem hlen]
    simp only []
    rw [ih _ (fun h hh => hsub h (List.mem_cons_of_mem _ hh))]
    simp

theorem reorder_eq (dataHeader line : List String)
    (hlen : dataHeader.length ≤ line.length) :
    reorder dataHeader line = Except.ok (dataHeader.map (pickField dataHeader line)) := by
  rw [reorder, reorderLoop_eq dataHeader line hlen dataHeader [] (fun _ h => h)]
  simp

theorem reorderLoop_length (dataHeader line : List String) :
    ∀ (rest lineOrdered job : List String),
      reorderLoop dataHeader line rest lineOrdered = Except.ok job →
      job.length = lineOrdered.length + rest.length := by
  intro rest
  induction rest with
  | nil => intro acc job h; simp [reorderLoop] at h; subst h; simp
  | cons header rest ih =>
    intro acc job h
    rw [reorderLoop] at h
    cases hx : indexLine line (getIndexByHeader dataHeader header) with
    | error f => rw [hx] at h; simp at h
    | ok field =>
      rw [hx] at h
      have := ih _ _ h
      simp at this ⊢
      omega

theorem reorder_length (dataHeader line job : List String)
    (h : reorder dataHeader line = Except.ok job) : job.length = dataHeader.length := by
  have := reorderLoop_length dataHeader line dataHeader [] job h
  simpa using this

theorem generateQuestionsMark_eq (n : Int) :
    generateQuestionsMark n = List.replicate n.toNat "?" := by
  unfold generateQuestionsMark
  induction n.toNat with
  | zero => rfl
  | succ m ih =>
    rw [List.range_succ, List.foldl_append, ih]
    simp [List.replicate_succ']

theorem map_pickField_of_nodup (dataHeader line : List String) (hnd : dataHeader.Nodup)
    (hlen : dataHeader.length = line.length) :
    dataHeader.map (pickField dataHeader line) = line := by
  apply List.ext_get (by simp [hlen])
  intro n h1 h2
  have hn : n < dataHeader.length := by simpa using h1
  have hidx : dataHeader.indexOf (dataHeader.get ⟨n, hn⟩) = n :=
    List.get_indexOf hnd ⟨n, hn⟩
  have hget : (dataHeader.map (pickField dataHeader line)).get ⟨n, h1⟩
      = pickField dataHeader line (dataHeader.get ⟨n, hn⟩) := by simp
  rw [hget, pickField, hidx, List.get?_eq_get h2]
  rfl

theorem pickField_map_pickField (dataHeader line : List String) (header : String)
    (hmem : header ∈ dataHeader) :
    pickField dataHeader (dataHeader.map (pickField dataHeader line)) header
      = pickField dataHeader line header := by
  have h1 : dataHeader.get? (dataHeader.indexOf header) = some header :=
    List.indexOf_get? hmem
  have h2 : (dataHeader.map (pickField dataHeader line)).get? (dataHeader.indexOf header)
      = some (pickField dataHeader line header) := by
    simpa using ⟨header, by simpa using h1, rfl⟩
  rw [pickField, h2]
  rfl

theorem reorderLoop_fails (dataHeader line : List String) (name : String)
    (hname : name ∉ dataHeader) :
    ∀ (rest lineOrdered : List String), name ∈ rest →
      ∃ f, reorderLoop dataHeader line rest lineOrdered = Except.error f := by
  intro rest
  induction rest with
  | nil => intro acc h; simp at h
  | cons header rest ih =>
    intro acc hmem
    rw [reorderLoop]
    cases hx : indexLine line (getIndexByHeader dataHeader header) with
    | error f => exact ⟨f, rfl⟩
    | ok field =>
      have hne : name ≠ header := by
        intro heq
        subst heq
        rw [getIndexByHeader_eq, if_neg hname, indexLine_neg _ _ (by decide)] at hx
        simp at hx
      rcases List.mem_cons.mp hmem with h | h
      · exact absurd h hne
      · exact ih _ h

/-! ## The reorder step and the insert statement: the claims -/

/-- C3: for a record with at least as many fields as the Header, the reorder step
succeeds; the Job has the length of the Header and its i-th value is the record's field
at the position `getIndexByHeader` returns for the i-th Header name, a position that is
within the record and at which the Header holds that name. -/
theorem reorder_spec (dataHeader line : List String)
    (hlen : dataHeader.length ≤ line.length) :
    ∃ job, reorder dataHeader line = Except.ok job ∧ job.length = dataHeader.length ∧
      ∀ (i : Nat) (name : String), dataHeader.get? i = some name →
        ∃ (p : Nat) (field : String), getIndexByHeader dataHeader name = (p : Int) ∧
          dataHeader.get? p = some name ∧ line.get? p = some field ∧
          indexLine line (getIndexByHeader dataHeader name) = Except.ok field ∧
          job.get? i = some field := by
  refine ⟨dataHeader.map (pickField dataHeader line), reorder_eq dataHeader line hlen,
    by simp, ?_⟩
  intro i name hi
  have hmem : name ∈ dataHeader := List.get?_mem hi
  have hlt : dataHeader.indexOf name < dataHeader.length := List.indexOf_lt_length.mpr hmem
  have hlt2 : dataHeader.indexOf name < line.length := lt_of_lt_of_le hlt hlen
  have hidx : getIndexByHeader dataHeader name = (dataHeader.indexOf name : Int) := by
    rw [getIndexByHeader_eq, if_pos hmem]
  have hfield : line.get? (dataHeader.indexOf name)
      = some (pickField dataHeader line name) := by
    rw [pickField, List.get?_eq_get hlt2]; rfl
  refine ⟨dataHeader.indexOf name, pickField dataHeader line name, hidx,
    List.indexOf_get? hmem, hfield, ?_, ?_⟩
  · rw [hidx]; exact indexLine_natCast _ _ _ hfield
  · simpa using ⟨name, by simpa using hi, rfl⟩

/-- C3, at the Header `id,name` and the record `1,a,zz`. -/
theorem reorder_spec_witness :
    ∃ job, reorder ["id", "name"] ["1", "a", "zz"] = Except.ok job ∧
      job.length = ["id", "name"].length ∧
      ∀ (i : Nat) (name : String), ["id", "name"].get? i = some name →
        ∃ (p : Nat) (field : String), getIndexByHeader ["id", "name"] name = (p : Int) ∧
          ["id", "name"].get? p = some name ∧ ["1", "a", "zz"].get? p = some field ∧
          indexLine ["1", "a", "zz"] (getIndexByHeader ["id", "name"] name)
            = Except.ok field ∧
          job.get? i = some field :=
  reorder_spec ["id", "name"] ["1", "a", "zz"] (by decide)

/-- C4, as stated, fails: with the Header `a,a` and the record `1,2`, of equal length,
the Job is `1,1`, not the record. -/
theorem reorder_noop_counterexample :
    ["a", "a"].length = ["1", "2"].length ∧
      reorder ["a", "a"] ["1", "2"] = Except.ok ["1", "1"] ∧
      reorder ["a", "a"] ["1", "2"] ≠ Except.ok ["1", "2"] := by
  decide

/-- C4, amended: for a record with exactly as many fields as the Header, reordering is
idempotent (reordering the Job again yields the same Job), and when no column name
occurs twice in the Header it is a no-op (the Job is the record). -/
theorem reorder_noop_idempotent (dataHeader line : List String)
    (hlen : dataHeader.length = line.length) :
    (dataHeader.Nodup → reorder dataHeader line = Except.ok line) ∧
      ∃ job, reorder dataHeader line = Except.ok job ∧
        reorder dataHeader job = Except.ok job := by
  constructor
  · intro hnd
    rw [reorder_eq dataHeader line (le_of_eq hlen),
      map_pickField_of_nodup dataHeader line hnd hlen]
  · refine ⟨dataHeader.map (pickField dataHeader line),
      reorder_eq dataHeader line (le_of_eq hlen), ?_⟩
    rw [reorder_eq dataHeader _ (by simp)]
    congr 1
    apply List.map_congr_left
    intro header hmem
    exact pickField_map_pickField dataHeader line header hmem

/-- C4, amended, at the Header `id,name` and the record `1,a`. -/
theorem reorder_noop_idempotent_witness :
    (["id", "name"].Nodup → reorder ["id", "name"] ["1", "a"] = Except.ok ["1", "a"]) ∧
      ∃ job, reorder ["id", "name"] ["1", "a"] = Except.ok job ∧
        reorder ["id", "name"] job = Except.ok job :=
  reorder_noop_idempotent ["id", "name"] ["1", "a"] (by decide)

/-- C5: `getIndexByHeader` returns -1 exactly when the name does not occur in the
Header; for a name that occurs it returns the position of the first occurrence, within
the Header; and for a name that does not occur, indexing any record with the returned
value is a run-time fault, never a field, so that a reorder loop that meets such a name
fails. -/
theorem getIndexByHeader_spec (dataHeader : List String) (name : String) :
    (getIndexByHeader dataHeader name = -1 ↔ name ∉ dataHeader) ∧
    (name ∈ dataHeader → ∃ p : Nat, getIndexByHeader dataHeader name = (p : Int) ∧
      p < dataHeader.length ∧ dataHeader.get? p = some name ∧
      ∀ q, q < p → dataHeader.get? q ≠ some name) ∧
    (name ∉ dataHeader → ∀ line : List String,
      indexLine line (getIndexByHeader dataHeader name)
        = Except.error (Fault.indexOutOfRange (-1) line.length) ∧
      ∀ rest lineOrdered : List String, name ∈ rest →
        ∃ f, reorderLoop dataHeader line rest lineOrdered = Except.error f) := by
  refine ⟨?_, ?_, ?_⟩
  · rw [getIndexByHeader_eq]
    by_cases hmem : name ∈ dataHeader
    · rw [if_pos hmem]
      constructor
      · intro h
        have hnn : (0 : Int) ≤ (dataHeader.indexOf name : Int) := Int.ofNat_nonneg _
        omega
      · intro h
        exact absurd hmem h
    · simp [hmem]
  · intro hmem
    refine ⟨dataHeader.indexOf name, ?_, List.indexOf_lt_length.mpr hmem,
      List.indexOf_get? hmem, get?_ne_of_lt_indexOf name dataHeader⟩
    rw [getIndexByHeader_eq, if_pos hmem]
  · intro hmem line
    refine ⟨?_, reorderLoop_fails dataHeader line name hmem⟩
    rw [getIndexByHeader_eq, if_neg hmem]
    exact indexLine_neg line (-1) (by decide)

/-- C5, at the Header `id,name`: the name `name` is found at position 1, the name `x` is
not found and indexing the record `1,a` with the result is a fault. -/
theorem getIndexByHeader_spec_witness :
    getIndexByHeader ["id", "name"] "name" = 1 ∧
      getIndexByHeader ["id", "name"] "x" = -1 ∧
      indexLine ["1", "a"] (getIndexByHeader ["id", "name"] "x")
        = Except.error (Fault.indexOutOfRange (-1) 2) :=
  ⟨by decide, ((getIndexByHeader_spec ["id", "name"] "x").1).mpr (by decide),
    (((getIndexByHeader_spec ["id", "name"] "x").2.2) (by decide) ["1", "a"]).1⟩

/-- C8: the statement `doTheJob` builds is `INSERT INTO domain (` + the Header names
joined by `,` + `) VALUES (` + one `?` per Header name joined by `,` + `)`;
`generateQuestionsMark n` is `n` placeholders, and every Job the reorder step produces
for the Header has as many values as there are placeholders. -/
theorem insertQuery_spec (dataHeader : List String) :
    insertQuery dataHeader
        = "INSERT INTO domain (" ++ ",".intercalate dataHeader ++ ") VALUES (" ++
            ",".intercalate (List.replicate dataHeader.length "?") ++ ")" ∧
      (∀ n : Nat, generateQuestionsMark (n : Int) = List.replicate n "?" ∧
        (generateQuestionsMark (n : Int)).length = n) ∧
      ∀ line job : List String, reorder dataHeader line = Except.ok job →
        job.length = (generateQuestionsMark (dataHeader.length : Int)).length := by
  refine ⟨?_, ?_, ?_⟩
  · simp [insertQuery, stringsJoin, generateQuestionsMark_eq]
  · intro n
    simp [generateQuestionsMark_eq]
  · intro line job h
    rw [reorder_length dataHeader line job h]
    simp [generateQuestionsMark_eq]

/-- C8, at the Header `id,name` and the record `1,a`. -/
theorem insertQuery_spec_witness :
    insertQuery ["id", "name"] = "INSERT INTO domain (id,name) VALUES (?,?)" ∧
      ["1", "a"].length = (generateQuestionsMark (["id", "name"].length : Int)).length :=
  ⟨by decide, (insertQuery_spec ["id", "name"]).2.2 ["1", "a"] ["1", "a"] (by decide)⟩

/-! ## The producer: lemmas and claims -/

theorem readLoop_error_eq_eof (e : String) (after after2 : List ReadResult) :
    ∀ (records : List (List String)) (st : Producer),
      readLoop (records.map ReadResult.record ++ ReadResult.error e :: after) st
        = readLoop (records.map ReadResult.record ++ ReadResult.eof :: after2) st := by
  intro records
  induction records with
  | nil => intro st; simp [readLoop]
  | cons line rest ih =>
    intro st
    simp only [List.map_cons, List.cons_append, readLoop]
    split
    · exact ih _
    · split
      · rfl
      · exact ih _

theorem readLoop_records (header : List String) (hne : header ≠ [])
    (tail : List ReadResult) :
    ∀ (rest jobs : List (List String)) (wgAdds closes reads : Nat),
      (∀ line ∈ rest, header.length ≤ line.length) →
      readLoop (rest.map ReadResult.record ++ tail)
          { dataHeader := header, jobs := jobs, wgAdds := wgAdds, closes := closes,
            reads := reads }
        = readLoop tail
          { dataHeader := header,
            jobs := jobs ++ rest.map (fun line => header.map (pickField header line)),
            wgAdds := wgAdds + rest.length, closes := closes,
            reads := reads + rest.length } := by
  have hlen0 : ¬ header.length = 0 := fun h => hne (List.length_eq_zero.mp h)
  intro rest
  induction rest with
  | nil => intro jobs wgAdds closes reads _; simp
  | cons line rest ih =>
    intro jobs wgAdds closes reads hall
    have hline : header.length ≤ line.length := hall line (List.mem_cons_self _ _)
    simp only [List.map_cons, List.cons_append, readLoop, if_neg hlen0,
      reorder_eq header line hline, List.append_eq]
    rw [ih _ _ _ _ (fun l hl => hall l (List.mem_cons_of_mem _ hl))]
    simp only [List.append_assoc, List.singleton_append, List.length_cons]
    congr 2 <;> omega

theorem readLoop_wellFormed (records : List (List String)) (tail : List ReadResult)
    (hwf : WellFormed records) :
    readLoop (records.map ReadResult.record ++ tail) Producer.start
      = readLoop tail
          { dataHeader := records.headD [],
            jobs := records.tail.map
              (fun line => (records.headD []).map (pickField (records.headD []) line)),
            wgAdds := records.length - 1, closes := 0, reads := records.length } := by
  cases records with
  | nil => rfl
  | cons header rest =>
    obtain ⟨hne, hall⟩ := hwf
    simp only [List.map_cons, List.cons_append, readLoop, Producer.start, List.length_nil,
      if_true, List.append_eq]
    rw [readLoop_records header hne tail rest [] 0 0 (0 + 1) hall]
    simp only [List.headD_cons, List.tail_cons, List.nil_append, List.length_cons]
    congr 2 <;> omega

theorem map_reorder_wellFormed (header : List String) (rest : List (List String))
    (hall : ∀ line ∈ rest, header.length ≤ line.length) :
    rest.map (reorder header)
      = (rest.map (fun line => header.map (pickField header line))).map Except.ok := by
  rw [List.map_map]
  apply List.map_congr_left
  intro line hline
  exact reorder_eq header line (hall line hline)

theorem readCsv_of_wellFormed (records : List (List String)) (tail : List ReadResult)
    (hwf : WellFormed records)
    (htail : tail = [] ∨ (∃ after, tail = ReadResult.eof :: after) ∨
      ∃ e after, tail = ReadResult.error e :: after) :
    readCsvFilePerLineThenSendToWorker (records.map ReadResult.record ++ tail)
        Producer.start
      = ({ dataHeader := records.headD [],
           jobs := records.tail.map
             (fun line => (records.headD []).map (pickField (records.headD []) line)),
           wgAdds := (records.tail.map
             (fun line => (records.headD []).map
               (pickField (records.headD []) line))).length,
           closes := 1, reads := records.length + 1 }, Exit.returned) := by
  rw [readCsvFilePerLineThenSendToWorker, readLoop_wellFormed records _ hwf]
  rcases htail with h | ⟨after, h⟩ | ⟨e, after, h⟩ <;> subst h <;> simp [readLoop]

theorem map_reorder_tail (records : List (List String)) (hwf : WellFormed records) :
    records.tail.map (reorder (records.headD []))
      = (records.tail.map
          (fun line => (records.headD []).map (pickField (records.headD []) line))).map
        Except.ok := by
  cases records with
  | nil => rfl
  | cons header rest => exact map_reorder_wellFormed header rest hwf.2

theorem csvRead_records_length :
    ∀ (file : List CsvLine) (fieldsPerRecord : Nat) (records : List (List String))
      (tail : List ReadResult), 0 < fieldsPerRecord →
      csvRead fieldsPerRecord file = records.map ReadResult.record ++ tail →
      ∀ line ∈ records, line.length = fieldsPerRecord := by
  intro file
  induction file with
  | nil =>
    intro fpr records tail _ h
    cases records with
    | nil => intro line hl; simp at hl
    | cons r rs => simp [csvRead] at h
  | cons first rest ih =>
    intro fpr records tail hpos h
    cases first with
    | malformed msg =>
      cases records with
      | nil => intro line hl; simp at hl
      | cons r rs => simp [csvRead] at h
    | fields fs =>
      rw [csvRead] at h
      by_cases h0 : fs.length = 0
      · rw [if_pos h0] at h
        exact ih fpr records tail hpos h
      · have hne : ¬ fpr = 0 := by omega
        rw [if_neg h0, if_neg hne] at h
        by_cases heq : fs.length = fpr
        · rw [if_pos heq] at h
          cases records with
          | nil => intro line hl; simp at hl
          | cons r rs =>
            simp only [List.map_cons, List.cons_append, List.cons.injEq,
              ReadResult.record.injEq] at h
            intro line hl
            rcases List.mem_cons.mp hl with hl | hl
            · rw [hl, ← h.1]; exact heq
            · exact ih fpr rs tail hpos h.2 line hl
        · rw [if_neg heq] at h
          cases records with
          | nil => intro line hl; simp at hl
          | cons r rs => simp at h

theorem csvRead_wellFormed :
    ∀ (file : List CsvLine) (records : List (List String)) (tail : List ReadResult),
      csvRead 0 file = records.map ReadResult.record ++ tail → WellFormed records := by
  intro file
  induction file with
  | nil =>
    intro records tail h
    cases records with
    | nil => trivial
    | cons r rs => simp [csvRead] at h
  | cons first rest ih =>
    intro records tail h
    cases first with
    | malformed msg =>
      cases records with
      | nil => trivial
      | cons r rs => simp [csvRead] at h
    | fields fs =>
      rw [csvRead] at h
      by_cases h0 : fs.length = 0
      · rw [if_pos h0] at h
        exact ih records tail h
      · rw [if_neg h0, if_pos rfl] at h
        cases records with
        | nil => trivial
        | cons r rs =>
          simp only [List.map_cons, List.cons_append, List.cons.injEq,
            ReadResult.record.injEq] at h
          have hr : r = fs := h.1.symm
          subst hr
          refine ⟨fun hnil => h0 (by rw [hnil]; rfl), ?_⟩
          intro line hl
          exact le_of_eq
            (csvRead_records_length rest r.length rs tail (by omega) h.2 line hl).symm

/-- C1: for every sequence of records that the reader of `openCsvFile` yields before
end-of-input with no read error, the function started from an empty `dataHeader`
returns with the first record as the Header, not enqueued, and with exactly one Job
counted and enqueued for every later record, in file order, each the record reordered
by the Header; the number of Jobs is the number of records minus one. -/
theorem readCsv_spec (file : List CsvLine) (records : List (List String))
    (hread : csvRead 0 file = records.map ReadResult.record ++ [ReadResult.eof]) :
    ∃ jobs : List (List String),
      readCsvFilePerLineThenSendToWorker (csvRead 0 file) Producer.start
        = ({ dataHeader := records.headD [], jobs := jobs, wgAdds := jobs.length,
             closes := 1, reads := records.length + 1 }, Exit.returned) ∧
      records.tail.map (reorder (records.headD [])) = jobs.map Except.ok ∧
      jobs.length = records.length - 1 := by
  have hwf : WellFormed records := csvRead_wellFormed file records _ hread
  refine ⟨_, ?_, map_reorder_tail records hwf, by simp⟩
  rw [hread]
  exact readCsv_of_wellFormed records _ hwf (Or.inr (Or.inl ⟨[], rfl⟩))

/-- C1, at the file with the lines `id,name`, `1,a`, a blank line and `2,b`. -/
theorem readCsv_spec_witness :
    csvRead 0 [CsvLine.fields ["id", "name"], CsvLine.fields ["1", "a"],
        CsvLine.fields [], CsvLine.fields ["2", "b"]]
      = [["id", "name"], ["1", "a"], ["2", "b"]].map ReadResult.record
          ++ [ReadResult.eof] ∧
    ∃ jobs : List (List String),
      readCsvFilePerLineThenSendToWorker
          (csvRead 0 [CsvLine.fields ["id", "name"], CsvLine.fields ["1", "a"],
            CsvLine.fields [], CsvLine.fields ["2", "b"]]) Producer.start
        = ({ dataHeader := [["id", "name"], ["1", "a"], ["2", "b"]].headD [],
             jobs := jobs, wgAdds := jobs.length, closes := 1,
             reads := [["id", "name"], ["1", "a"], ["2", "b"]].length + 1 },
            Exit.returned) ∧
      [["id", "name"], ["1", "a"], ["2", "b"]].tail.map
          (reorder ([["id", "name"], ["1", "a"], ["2", "b"]].headD []))
        = jobs.map Except.ok ∧
      jobs.length = [["id", "name"], ["1", "a"], ["2", "b"]].length - 1 :=
  ⟨by decide,
    readCsv_spec
      [CsvLine.fields ["id", "name"], CsvLine.fields ["1", "a"], CsvLine.fields [],
        CsvLine.fields ["2", "b"]]
      [["id", "name"], ["1", "a"], ["2", "b"]] (by decide)⟩

/-- C9: when a read of the reader of `openCsvFile` returns an error other than
end-of-input, after the records it has yielded so far, the function ends at that read
exactly as it does at end-of-input: it returns, with the Jobs of the records after the
Header enqueued in order, with one read more than there are records, whatever the later
reads would return, and with the channel closed once; the result carries no error and
the read is not repeated. -/
theorem readError_spec (file : List CsvLine) (records : List (List String)) (e : String)
    (after : List ReadResult)
    (hread : csvRead 0 file = records.map ReadResult.record ++ [ReadResult.error e]) :
    (∃ jobs : List (List String),
      readCsvFilePerLineThenSendToWorker (csvRead 0 file ++ after) Producer.start
        = ({ dataHeader := records.headD [], jobs := jobs, wgAdds := jobs.length,
             closes := 1, reads := records.length + 1 }, Exit.returned) ∧
      records.tail.map (reorder (records.headD [])) = jobs.map Except.ok) ∧
    readCsvFilePerLineThenSendToWorker (csvRead 0 file ++ after) Producer.start
      = readCsvFilePerLineThenSendToWorker
        (records.map ReadResult.record ++ [ReadResult.eof]) Producer.start := by
  have hwf : WellFormed records := csvRead_wellFormed file records _ hread
  have hsrc : csvRead 0 file ++ after
      = records.map ReadResult.record ++ ReadResult.error e :: after := by
    rw [hread, List.append_assoc]
    rfl
  refine ⟨⟨_, ?_, map_reorder_tail records hwf⟩, ?_⟩
  · rw [hsrc]
    exact readCsv_of_wellFormed records _ hwf (Or.inr (Or.inr ⟨e, after, rfl⟩))
  · rw [hsrc, readCsvFilePerLineThenSendToWorker, readCsvFilePerLineThenSendToWorker,
      readLoop_error_eq_eof e after []]

/-- C9, at the file with the lines `id,name`, `1,a`, the short line `x` and `2,b`: the
read of the short line returns `ErrFieldCount`, the Job of `1,a` has been enqueued, the
record `2,b` is never read, and the channel is closed once. -/
theorem readError_spec_witness :
    csvRead 0 [CsvLine.fields ["id", "name"], CsvLine.fields ["1", "a"],
        CsvLine.fields ["x"], CsvLine.fields ["2", "b"]]
      = [["id", "name"], ["1", "a"]].map ReadResult.record
          ++ [ReadResult.error errFieldCount] ∧
    readCsvFilePerLineThenSendToWorker
        (csvRead 0 [CsvLine.fields ["id", "name"], CsvLine.fields ["1", "a"],
            CsvLine.fields ["x"], CsvLine.fields ["2", "b"]]
          ++ [ReadResult.record ["2", "b"], ReadResult.eof]) Producer.start
      = ({ dataHeader := ["id", "name"], jobs := [["1", "a"]], wgAdds := 1, closes := 1,
           reads := 3 }, Exit.returned) ∧
    readCsvFilePerLineThenSendToWorker
        (csvRead 0 [CsvLine.fields ["id", "name"], CsvLine.fields ["1", "a"],
            CsvLine.fields ["x"], CsvLine.fields ["2", "b"]]
          ++ [ReadResult.record ["2", "b"], ReadResult.eof]) Producer.start
      = readCsvFilePerLineThenSendToWorker
        ([["id", "name"], ["1", "a"]].map ReadResult.record ++ [ReadResult.eof])
        Producer.start :=
  ⟨by decide, by decide,
    (readError_spec
      [CsvLine.fields ["id", "name"], CsvLine.fields ["1", "a"], CsvLine.fields ["x"],
        CsvLine.fields ["2", "b"]]
      [["id", "name"], ["1", "a"]] errFieldCount
      [ReadResult.record ["2", "b"], ReadResult.eof] (by decide)).2⟩

/-! ## The Insert Executor: lemmas and claims -/

theorem transaction_rows_of_error
    (fc : ExecResult → Option String × List (String × List String) × List LogLine)
    (a : Attempt) (e : String) (rows : List (String × List String)) (log : List LogLine)
    (h : transaction fc a = (some e, rows, log)) : rows = [] := by
  unfold transaction at h
  split at h
  · simp only [Prod.mk.injEq] at h
    exact h.2.1.symm
  · split at h
    · simp only [Prod.mk.injEq] at h
      exact h.2.1.symm
    · split at h
      · simp at h
      · simp only [Prod.mk.injEq] at h
        exact h.2.1.symm

theorem transaction_of_succeeds (dataHeader job : List String) (a : Attempt)
    (h : a.Succeeds) :
    transaction (txFunc dataHeader job) a = (none, [(insertQuery dataHeader, job)], []) := by
  obtain ⟨h1, h2, h3⟩ := h
  simp [transaction, txFunc, h1, h2, h3]

theorem doTheJobLoop_retry (sink : Nat → Attempt) (workerIndex counter : Nat)
    (dataHeader job : List String) :
    ∀ (K fuel n : Nat) (run : JobRun), K < fuel →
      (∀ i, i < K → Attempt.FailsWithError dataHeader job (sink (n + i))) →
      (sink (n + K)).Succeeds →
      ∃ r, doTheJobLoop sink workerIndex counter dataHeader job fuel n run = some r ∧
        r.attempts = run.attempts + K + 1 ∧
        r.inserted = run.inserted ++ [(insertQuery dataHeader, job)] ∧
        r.log.countP LogLine.isFailure = run.log.countP LogLine.isFailure + K ∧
        r.sleeps = run.sleeps ++ List.replicate K 1 := by
  intro K
  induction K with
  | zero =>
    intro fuel n run hfuel _ hok
    obtain ⟨fuel, rfl⟩ : ∃ f, fuel = f + 1 := ⟨fuel - 1, by omega⟩
    have hok0 : (sink n).Succeeds := by simpa using hok
    rw [doTheJobLoop, transaction_of_succeeds dataHeader job _ hok0]
    refine ⟨_, rfl, rfl, rfl, ?_, by simp⟩
    by_cases hc : counter % 100 = 0 <;> simp [hc, LogLine.isFailure]
  | succ K ih =>
    intro fuel n run hfuel hfail hok
    obtain ⟨fuel, rfl⟩ : ∃ f, fuel = f + 1 := ⟨fuel - 1, by omega⟩
    have h0 : Attempt.FailsWithError dataHeader job (sink n) := by
      simpa using hfail 0 (by omega)
    rw [doTheJobLoop]
    rcases htx : transaction (txFunc dataHeader job) (sink n) with ⟨err, rows, log⟩
    cases err with
    | none => exact absurd (by rw [htx]) h0
    | some e =>
      have hrows : rows = [] := transaction_rows_of_error _ _ _ _ _ htx
      subst hrows
      simp only []
      obtain ⟨r, hr, h1, h2, h3, h4⟩ := ih fuel (n + 1)
        { attempts := run.attempts + 1, inserted := run.inserted ++ [],
          log := run.log ++ log ++ [LogLine.failure workerIndex counter e],
          sleeps := run.sleeps ++ [1] }
        (by omega)
        (fun i hi => by
          have := hfail (i + 1) (by omega)
          rwa [show n + (i + 1) = n + 1 + i by omega] at this)
        (by rwa [show n + (K + 1) = n + 1 + K by omega] at hok)
      refine ⟨r, hr, ?_, ?_, ?_, ?_⟩
      · rw [h1]; simp only []; omega
      · rw [h2]; simp
      · rw [h3]
        have hlog : List.countP LogLine.isFailure log = 0 := by
          unfold transaction at htx
          split at htx
          · simp only [Prod.mk.injEq] at htx
            rw [← htx.2.2]; rfl
          · have hfc : ∀ x, List.countP LogLine.isFailure
                (txFunc dataHeader job x).2.2 = 0 := by
              intro x; cases x <;> rfl
            split at htx
            · rename_i hf
              simp only [Prod.mk.injEq] at htx
              rw [← htx.2.2]
              have := hfc (sink n).exec
              rw [hf] at this
              exact this
            · rename_i hf
              have := hfc (sink n).exec
              rw [hf] at this
              split at htx
              · simp at htx
              · simp only [Prod.mk.injEq] at htx
                rw [← htx.2.2]
                exact this
        simp only [List.countP_append, hlog]
        simp [LogLine.isFailure]
        omega
      · rw [h4]
        simp [List.replicate_succ]

/-- C6: if the first `K` attempts fail with an error and attempt `K + 1` succeeds, then
`doTheJob`, given room for more than `K` attempts, returns after exactly `K + 1`
attempts, with exactly one row inserted (the statement with the Job's values), exactly
`K` failure lines logged and exactly `K` sleeps of one second each. -/
theorem doTheJob_retry (K fuel : Nat) (sink : Nat → Attempt) (workerIndex counter : Nat)
    (dataHeader job : List String) (hfuel : K < fuel)
    (hfail : ∀ i, i < K → Attempt.FailsWithError dataHeader job (sink i))
    (hok : (sink K).Succeeds) :
    ∃ r, doTheJob fuel sink workerIndex counter dataHeader job = some r ∧
      r.attempts = K + 1 ∧
      r.inserted = [(insertQuery dataHeader, job)] ∧
      r.log.countP LogLine.isFailure = K ∧
      r.sleeps = List.replicate K 1 := by
  obtain ⟨r, hr, h1, h2, h3, h4⟩ :=
    doTheJobLoop_retry sink workerIndex counter dataHeader job K fuel 0
      { attempts := 0, inserted := [], log := [], sleeps := [] } hfuel
      (fun i hi => by simpa using hfail i hi) (by simpa using hok)
  refine ⟨r, hr, ?_, ?_, ?_, ?_⟩
  · simpa using h1
  · simpa using h2
  · simpa using h3
  · simpa using h4

/-- C6, at a sink whose first two attempts return the error `lock timeout` and whose
third attempt succeeds. -/
theorem doTheJob_retry_witness :
    ∃ r, doTheJob 3
        (fun n => if n < 2 then
          { beginError := none, exec := ExecResult.error "lock timeout",
            commitError := none }
          else { beginError := none, exec := ExecResult.ok, commitError := none })
        7 0 ["id", "name"] ["1", "a"] = some r ∧
      r.attempts = 2 + 1 ∧
      r.inserted = [(insertQuery ["id", "name"], ["1", "a"])] ∧
      r.log.countP LogLine.isFailure = 2 ∧
      r.sleeps = List.replicate 2 1 :=
  doTheJob_retry 2 3 _ 7 0 ["id", "name"] ["1", "a"] (by decide)
    (fun i hi => by
      have hi2 : i = 0 ∨ i = 1 := by omega
      rcases hi2 with h | h <;> subst h <;> decide)
    (by decide)

/-- C2, at the failing input: the attempt's `tx.Exec` panics and the commit goes through.
`doTheJob` returns after this one attempt, with no row inserted, no failure line and no
sleep: the recovered panic is reported as a finished Job, not retried. -/
theorem doTheJob_panic_returns :
    doTheJob 1
        (fun _ => { beginError := none, exec := ExecResult.panic "boom",
                    commitError := none })
        7 0 ["id", "name"] ["1", "a"]
      = some { attempts := 1, inserted := [],
               log := [LogLine.recovered "boom", LogLine.inserted 7 0], sleeps := [] } := by
  decide

/-! ## The Worker Pool and the WaitGroup protocol: lemmas and claims -/

theorem dispatchWorkersLoop_eq :
    ∀ (d workerIndex : Nat) (started : List Nat), workerIndex + d = totalWorker + 1 →
      dispatchWorkersLoop workerIndex started = started ++ List.range' workerIndex d := by
  intro d
  induction d with
  | zero =>
    intro workerIndex started h
    rw [dispatchWorkersLoop, if_neg (by omega)]
    simp
  | succ d ih =>
    intro workerIndex started h
    rw [dispatchWorkersLoop, if_pos (by omega), ih (workerIndex + 1) _ (by omega)]
    simp [List.range'_succ]

theorem dispatchWorkers_eq : dispatchWorkers = List.range (totalWorker + 1) := by
  rw [dispatchWorkers, dispatchWorkersLoop_eq (totalWorker + 1) 0 [] (by omega),
    List.range_eq_range']
  simp

theorem dispatchWorkers_length : dispatchWorkers.length = 101 := by
  rw [dispatchWorkers_eq, List.length_range]
  rfl

/-- C10: `dispatchWorkers` starts one worker for each index from 0 through `totalWorker`
inclusive, whatever the input: `totalWorker + 1 = 101` workers, more than the cap of 100
open connections that `openDbConnection` sets. -/
theorem dispatchWorkers_spec :
    dispatchWorkers = List.range (totalWorker + 1) ∧
      (∀ workerIndex, workerIndex ∈ dispatchWorkers ↔ workerIndex ≤ totalWorker) ∧
      dispatchWorkers.length = totalWorker + 1 ∧
      dispatchWorkers.length = 101 ∧
      maxOpenConns = 100 ∧
      maxOpenConns < dispatchWorkers.length := by
  refine ⟨dispatchWorkers_eq, ?_, ?_, dispatchWorkers_length, rfl, ?_⟩
  · intro workerIndex
    rw [dispatchWorkers_eq, List.mem_range]
    omega
  · rw [dispatchWorkers_length]; rfl
  · rw [dispatchWorkers_length]; decide

theorem countP_set (p : WorkerPc → Bool) :
    ∀ (workers : List WorkerPc) (w : Nat) (old new : WorkerPc),
      workers.get? w = some old →
      (workers.set w new).countP p + (if p old then 1 else 0)
        = workers.countP p + (if p new then 1 else 0) := by
  intro workers
  induction workers with
  | nil => intro w old new h; simp at h
  | cons pc rest ih =>
    intro w old new h
    cases w with
    | zero =>
      simp only [List.get?_cons_zero, Option.some.injEq] at h
      subst h
      simp only [List.set_cons_zero, List.countP_cons]
      omega
    | succ w =>
      simp only [List.get?_cons_succ] at h
      have := ih w old new h
      simp only [List.set_cons_succ, List.countP_cons]
      omega

theorem System.inv_init (n : Nat) : (System.init n).Inv := by
  have h1 : busyCount (List.replicate n WorkerPc.receiving) = 0 := by
    simp [busyCount, List.countP_eq_zero, WorkerPc.isBusy]
  have h2 : runningCount (List.replicate n WorkerPc.receiving) = 0 := by
    simp [runningCount, List.countP_eq_zero, WorkerPc.isRunning]
  simp [System.Inv, System.init, h1, h2]

theorem System.inv_step (s s1 : System) (a : Action) (hinv : s.Inv)
    (hstep : s.step a = some s1) : s1.Inv := by
  obtain ⟨hp, hd⟩ := hinv
  cases a with
  | add =>
    simp only [System.step] at hstep
    split at hstep
    · rename_i hadd
      simp only [Option.some.injEq] at hstep
      subst hstep
      simp only [System.Inv, hadd] at hp ⊢
      refine ⟨?_, hd⟩
      simp at hp ⊢
      omega
    · simp at hstep
  | handOver w =>
    simp only [System.step] at hstep
    split at hstep
    · rename_i hen
      simp only [Option.some.injEq] at hstep
      subst hstep
      have hb := countP_set WorkerPc.isBusy s.workers w
        WorkerPc.receiving WorkerPc.running hen.2
      have hr := countP_set WorkerPc.isRunning s.workers w
        WorkerPc.receiving WorkerPc.running hen.2
      simp [WorkerPc.isBusy, WorkerPc.isRunning] at hb hr
      simp only [System.Inv, busyCount, runningCount, hen.1] at hp hd ⊢
      simp at hp ⊢
      constructor <;> omega
    · simp at hstep
  | finish w =>
    simp only [System.step] at hstep
    split at hstep
    · rename_i hen
      simp only [Option.some.injEq] at hstep
      subst hstep
      have hb := countP_set WorkerPc.isBusy s.workers w
        WorkerPc.running WorkerPc.returned hen
      have hr := countP_set WorkerPc.isRunning s.workers w
        WorkerPc.running WorkerPc.returned hen
      simp [WorkerPc.isBusy, WorkerPc.isRunning] at hb hr
      simp only [System.Inv, busyCount, runningCount] at hp hd ⊢
      constructor <;> omega
    · simp at hstep
  | done w =>
    simp only [System.step] at hstep
    split at hstep
    · rename_i hen
      simp only [Option.some.injEq] at hstep
      subst hstep
      have hb := countP_set WorkerPc.isBusy s.workers w
        WorkerPc.returned WorkerPc.receiving hen
      have hr := countP_set WorkerPc.isRunning s.workers w
        WorkerPc.returned WorkerPc.receiving hen
      simp [WorkerPc.isBusy, WorkerPc.isRunning] at hb hr
      simp only [System.Inv, busyCount, runningCount] at hp hd ⊢
      constructor <;> omega
    · simp at hstep

theorem System.inv_run :
    ∀ (schedule : List Action) (s s1 : System), s.Inv → s.run schedule = some s1 →
      s1.Inv := by
  intro schedule
  induction schedule with
  | nil =>
    intro s s1 hinv h
    simp only [System.run, Option.some.injEq] at h
    subst h
    exact hinv
  | cons a rest ih =>
    intro s s1 hinv h
    simp only [System.run] at h
    split at h
    · rename_i s2 hs2
      exact ih s2 s1 (System.inv_step s s2 a hinv hs2) h
    · simp at h

theorem busyCount_eq_zero (workers : List WorkerPc) :
    busyCount workers = 0 ↔ ∀ pc ∈ workers, pc = WorkerPc.receiving := by
  rw [busyCount, List.countP_eq_zero]
  constructor
  · intro h pc hpc
    have := h pc hpc
    cases pc <;> simp [WorkerPc.isBusy] at this ⊢
  · intro h pc hpc
    rw [h pc hpc]
    simp [WorkerPc.isBusy]

theorem runningCount_le_busyCount (workers : List WorkerPc) :
    runningCount workers ≤ busyCount workers := by
  apply List.countP_mono_left
  intro pc _ h
  cases pc <;> simp [WorkerPc.isRunning, WorkerPc.isBusy] at h ⊢

theorem System.inv_of_reachable (s : System) (h : Reachable s) : s.Inv := by
  obtain ⟨schedule, hrun⟩ := h
  exact System.inv_run schedule _ s (System.inv_init _) hrun

/-- C7, as stated, fails: after `wg.Add(1)`, the hand-over of the Job to worker 0 and the
return of `doTheJob` in worker 0, every Job dispatched so far has completed, and the
Pending Count is 1, not zero, because `wg.Done()` has not run yet. -/
theorem pending_counterexample :
    (System.init dispatchWorkers.length).run
        [Action.add, Action.handOver 0, Action.finish 0]
      = some { pending := 1, added := false,
               workers := WorkerPc.returned :: List.replicate 100 WorkerPc.receiving,
               dispatched := 1, completed := 1 } := by
  rw [dispatchWorkers_length]
  decide

/-- C7, amended: in every reachable state the Pending Count is never negative; when it
is zero, every Job dispatched so far has completed; and it is zero exactly when the
producer does not stand between `wg.Add(1)` and the send and every worker has run
`wg.Done()` for the Job it took and waits at the channel. -/
theorem pending_invariant (s : System) (h : Reachable s) :
    0 ≤ s.pending ∧ (s.pending = 0 → s.completed = s.dispatched) ∧
      (s.pending = 0 ↔ s.added = false ∧ ∀ pc ∈ s.workers, pc = WorkerPc.receiving) := by
  obtain ⟨hp, hd⟩ := System.inv_of_reachable s h
  have hle := runningCount_le_busyCount s.workers
  have hbusy := busyCount_eq_zero s.workers
  refine ⟨?_, ?_, ?_⟩
  · rw [hp]; split <;> omega
  · intro h0
    rw [hp] at h0
    split at h0 <;> omega
  · rw [← hbusy, hp]
    cases hadd : s.added
    · simp
    · simp; omega

/-- C7, amended, at the state reached when one Job has been counted, handed over to
worker 0, completed and acknowledged. -/
theorem pending_invariant_witness :
    Reachable System.oneJobDone ∧ 0 ≤ System.oneJobDone.pending ∧
      (System.oneJobDone.pending = 0 →
        System.oneJobDone.completed = System.oneJobDone.dispatched) ∧
      (System.oneJobDone.pending = 0 ↔ System.oneJobDone.added = false ∧
        ∀ pc ∈ System.oneJobDone.workers, pc = WorkerPc.receiving) :=
  have hreach : Reachable System.oneJobDone :=
    ⟨[Action.add, Action.handOver 0, Action.finish 0, Action.done 0], by
      rw [dispatchWorkers_length]
      decide⟩
  ⟨hreach, pending_invariant System.oneJobDone hreach⟩

end InsertCsv
